import Mathlib

/-!
Verification of the MolBERT fine-tuning glue code: a shallow embedding of
`molbert/models/finetune.py` (class `FinetuneSmilesMolbertModel`) and of
`molbert/apps/base.py` (class `BaseMolbertApp`), with theorems settling the
testable properties of the specification.

Conventions of the embedding:
* Python attribute dictionaries become Lean structures.
* A possibly-missing / possibly-`None` attribute becomes an `Option`.
* Machine floats that only flow through the code unchanged are modelled as `ℚ`.
* A float that is printed into `metrics.json` is modelled by its decimal
  representation (`PyFloat` below), since the claims about the file are about
  the printed text.
* Fallible calls (`torch.cat` on an empty list, `torch.stack` on an empty
  list) return `Except String`.
* Calls into external libraries (torchmetrics kernels, the loss evaluation of
  the base model) are parameters of the embedding: the code under
  verification treats them as opaque callables.
-/

namespace Molbert

/-! ## Hyperparameters and configuration (`finetune.py`, `get_config`) -/

/-- The fields of `self.hparams` that `FinetuneSmilesMolbertModel` reads.
`vocab_size = none` models a missing attribute, `some 0` a falsy one. -/
structure HParams where
  vocab_size : Option Nat
  tiny : Bool
  max_position_embeddings : Nat
  mode : String
  output_size : Nat
  label_column : String
  max_seq_length : Nat
  train_file : String
  valid_file : String
  test_file : String
  num_workers : Nat
deriving DecidableEq

/-- The configuration record built by `get_config` (`BertConfigExtras`). -/
structure BertConfigExtras where
  vocab_size_or_config_json_file : Nat
  hidden_size : Nat
  num_hidden_layers : Nat
  num_attention_heads : Nat
  intermediate_size : Nat
  max_position_embeddings : Nat
  mode : String
  output_size : Nat
  label_column : String
deriving DecidableEq

/-- `FinetuneSmilesMolbertModel.get_config` (finetune.py lines 24-53).
The method both returns a config and (when `vocab_size` is missing or falsy)
mutates `self.hparams`; the mutation is made explicit by returning the
resulting hyperparameters alongside the config. -/
def get_config (h : HParams) : BertConfigExtras × HParams :=
  let h1 := if h.vocab_size = none ∨ h.vocab_size = some 0
    then { h with vocab_size := some 42 } else h
  let v := h1.vocab_size.getD 42
  if h1.tiny = true then
    ({ vocab_size_or_config_json_file := v
       hidden_size := 16
       num_hidden_layers := 2
       num_attention_heads := 2
       intermediate_size := 32
       max_position_embeddings := h1.max_position_embeddings
       mode := h1.mode
       output_size := h1.output_size
       label_column := h1.label_column }, h1)
  else
    ({ vocab_size_or_config_json_file := v
       hidden_size := 768
       num_hidden_layers := 12
       num_attention_heads := 12
       intermediate_size := 3072
       max_position_embeddings := h1.max_position_embeddings
       mode := h1.mode
       output_size := h1.output_size
       label_column := h1.label_column }, h1)

/-! ## Tasks (`get_tasks`) -/

/-- `FinetuneTask(name=..., config=...)` from `molbert.tasks.tasks`:
the part visible to `finetune.py` is its name and its config. -/
structure FinetuneTask where
  name : String
  config : BertConfigExtras
deriving DecidableEq

/-- `FinetuneSmilesMolbertModel.get_tasks` (finetune.py lines 55-59). -/
def get_tasks (config : BertConfigExtras) : List FinetuneTask :=
  [{ name := "finetune", config := config }]

/-! ## Datasets (`load_datasets`) -/

/-- `SmilesIndexFeaturizer.bert_smiles_index_featurizer(max_seq_length)`:
external collaborator, identified by the length it was built with. -/
structure SmilesIndexFeaturizer where
  max_seq_length : Nat
deriving DecidableEq

def bert_smiles_index_featurizer (n : Nat) : SmilesIndexFeaturizer :=
  { max_seq_length := n }

/-- The constructor arguments of `BertFinetuneSmilesDataset` as passed in
`load_datasets`. Modelled from the spec: the class itself
(molbert/datasets/finetune.py) is not among the given sources; per the spec
its `inference_mode` flag defaults to off when the call site omits it
(train/valid are "built without inference mode"). -/
structure BertFinetuneSmilesDataset where
  input_path : String
  featurizer : SmilesIndexFeaturizer
  single_seq_len : Nat
  total_seq_len : Nat
  label_column : String
  is_same : Bool
  inference_mode : Bool := false
deriving DecidableEq

structure DatasetSplits where
  train : BertFinetuneSmilesDataset
  valid : BertFinetuneSmilesDataset
  test : BertFinetuneSmilesDataset
deriving DecidableEq

/-- `FinetuneSmilesMolbertModel.load_datasets` (finetune.py lines 61-92). -/
def load_datasets (h : HParams) : DatasetSplits :=
  let featurizer := bert_smiles_index_featurizer h.max_seq_length
  let train_dataset : BertFinetuneSmilesDataset :=
    { input_path := h.train_file
      featurizer := featurizer
      single_seq_len := h.max_seq_length
      total_seq_len := h.max_seq_length
      label_column := h.label_column
      is_same := false }
  let validation_dataset : BertFinetuneSmilesDataset :=
    { input_path := h.valid_file
      featurizer := featurizer
      single_seq_len := h.max_seq_length
      total_seq_len := h.max_seq_length
      label_column := h.label_column
      is_same := false }
  let test_dataset : BertFinetuneSmilesDataset :=
    { input_path := h.test_file
      featurizer := featurizer
      single_seq_len := h.max_seq_length
      total_seq_len := h.max_seq_length
      label_column := h.label_column
      is_same := false
      inference_mode := true }
  { train := train_dataset, valid := validation_dataset, test := test_dataset }

/-! ## Test dataloader (`test_dataloader`) -/

/-- The arguments `test_dataloader` hands to `MolbertDataLoader`. -/
structure MolbertDataLoaderArgs where
  dataset_size : Nat
  batch_size : Nat
deriving DecidableEq

/-- `FinetuneSmilesMolbertModel.test_dataloader` (finetune.py lines 176-179):
`MolbertDataLoader(dataset, batch_size=1024, num_workers=...)` on the test
dataset, here identified by its number of examples. -/
def test_dataloader (test_size : Nat) : MolbertDataLoaderArgs :=
  { dataset_size := test_size, batch_size := 1024 }

/-- Fuel-driven chunking: the sizes of the successive batches a loader with
batch size `bs` yields on `n` remaining examples. Fuel `n` is always enough
because each step removes at least one example. -/
def chunkSizesAux (bs : Nat) : Nat → Nat → List Nat
  | 0, _ => []
  | fuel + 1, n =>
    if n = 0 then []
    else if n ≤ bs then [n]
    else bs :: chunkSizesAux bs fuel (n - bs)

/-- Modelled from the spec: `MolbertDataLoader`
(molbert/datasets/dataloading.py is not among the given sources) is a data
loader constructed with a fixed `batch_size`; a loader that does not drop its
last batch yields the dataset in consecutive chunks of `batch_size` examples,
the final chunk possibly smaller. This gives the batch sizes it produces. -/
def batch_sizes (dl : MolbertDataLoaderArgs) : List Nat :=
  chunkSizesAux dl.batch_size dl.dataset_size dl.dataset_size

/-! ## Trainer construction (`base.py`, `BaseMolbertApp.run`) -/

/-- The `devices=` argument of the `Trainer` call. -/
inductive Devices where
  | auto
  | count (n : Int)
deriving DecidableEq

/-- The CLI arguments `BaseMolbertApp.run` reads when building the trainer. -/
structure RunArgs where
  default_root_dir : String
  min_epochs : Int
  max_epochs : Int
  val_check_interval : ℚ
  limit_val_batches : ℚ
  gpus : Int
  strategy : String
  precision : String
  num_nodes : Int
  accumulate_grad_batches : Int
  fast_dev_run : Bool
  wandb : Bool
deriving DecidableEq

/-- The trainer-configuration record assembled by `run`. -/
structure TrainerArgs where
  default_root_dir : String
  min_epochs : Int
  max_epochs : Int
  val_check_interval : ℚ
  limit_val_batches : ℚ
  devices : Devices
  strategy : String
  precision : String
  num_nodes : Int
  accumulate_grad_batches : Int
  fast_dev_run : Bool
  wandb_logger : Bool
deriving DecidableEq

/-- The `Trainer(...)` call inside `BaseMolbertApp.run` (base.py lines 50-64):
every field passes through from the parsed arguments except `devices`, which
is literally `"auto" if args.gpus == 0 else args.gpus`. -/
def run_trainer_args (args : RunArgs) : TrainerArgs :=
  { default_root_dir := args.default_root_dir
    min_epochs := args.min_epochs
    max_epochs := args.max_epochs
    val_check_interval := args.val_check_interval
    limit_val_batches := args.limit_val_batches
    devices := if args.gpus = 0 then Devices.auto else Devices.count args.gpus
    strategy := args.strategy
    precision := args.precision
    num_nodes := args.num_nodes
    accumulate_grad_batches := args.accumulate_grad_batches
    fast_dev_run := args.fast_dev_run
    wandb_logger := args.wandb }

/-! ## Scalars and metric values (`evaluate_metrics`) -/

/-- A tensor of the embedding: the code only moves predictions and labels
around and concatenates them, so a flat list of rational entries suffices. -/
abbrev Tensor := List ℚ

/-- The decimal representation of a Python float as printed by `repr` /
`json.dump`: the value `m / 10 ^ (e + 1)`, printed with exactly `e + 1`
fractional digits (Python's float repr always prints at least one). -/
structure PyFloat where
  m : Int
  e : Nat
deriving DecidableEq

/-- A value of the metrics report: either the scalar a metric returned via
`.item()`, or the `np.nan` sentinel stored when the metric raised. -/
inductive MetricValue where
  | num (x : PyFloat)
  | nan
deriving DecidableEq

/-- The torchmetrics kernels (`AUROC`, `Accuracy`, `MeanSquaredError`, ...)
are external library calls; each is an opaque computation on the labels and
predictions that either produces a scalar or raises. -/
structure TorchMetricsLib where
  compute : String → Tensor → Tensor → Except String PyFloat

/-- The metric names of `evaluate_metrics`, in the insertion order of the
source dictionaries (finetune.py lines 106-119). -/
def metric_names (mode : String) : List String :=
  if mode = "classification" then
    ["AUROC", "AveragePrecision", "Accuracy", "F1"]
  else
    ["MAE", "RMSE", "MSE", "R2"]

/-- The `try`/`except` body of the metric loop (finetune.py lines 122-128):
a metric that raises is recorded as `np.nan`, one that returns is recorded
via `.item()`. -/
def tryMetric (c : Except String PyFloat) : MetricValue :=
  match c with
  | Except.ok v => MetricValue.num v
  | Except.error _ => MetricValue.nan

/-- `FinetuneSmilesMolbertModel.evaluate_metrics` (finetune.py lines 94-130):
builds the mode's named metric callables and runs each one inside
`try`/`except`, so the result always has one entry per metric name. -/
def evaluate_metrics (lib : TorchMetricsLib) (mode : String)
    (batch_labels batch_predictions : Tensor) : List (String × MetricValue) :=
  (metric_names mode).map fun name =>
    (name, tryMetric (lib.compute name batch_labels batch_predictions))

/-! ## Decimal digits, kernel-computable

`Nat.digits` of Mathlib is defined by well-founded recursion and does not
reduce inside `decide`/`rfl`, so the embedding carries its own fuelled digit
function together with correctness lemmas proved against `Nat.ofDigits`. -/

/-- Little-endian decimal digits of `n`, with explicit fuel. -/
def natDigitsRev : Nat → Nat → List Nat
  | 0, _ => []
  | fuel + 1, n => if n = 0 then [] else n % 10 :: natDigitsRev fuel (n / 10)

/-- Little-endian decimal digits of `n` (empty for `0`). -/
def natDigitsLE (n : Nat) : List Nat := natDigitsRev n n

/-- The number a little-endian decimal digit list denotes. -/
def fromDigitsLE : List Nat → Nat
  | [] => 0
  | d :: ds => d + 10 * fromDigitsLE ds

/-- The number a big-endian decimal digit list denotes (what a reader of the
printed text computes left to right). -/
def digitsVal (ds : List Nat) : Nat := fromDigitsLE ds.reverse

/-- Digit value to character, `0 ↦ '0'`, ..., `9 ↦ '9'`. -/
def digitChar (d : Nat) : Char := Char.ofNat (48 + d)

/-- Character to digit value. -/
def charDigit (c : Char) : Nat := c.toNat - 48

def isDigitCh (c : Char) : Bool := 48 ≤ c.toNat && c.toNat ≤ 57

/-! ## `json.dump(metrics, f, indent=4)` -/

/-- Big-endian digits of the integer part (Python prints `0` for an empty
integer part). -/
def ipDigits (n : Nat) : List Nat :=
  if n = 0 then [0] else (natDigitsLE n).reverse

/-- Big-endian digits of the fractional part: the digits of `r`, left-padded
with zeros to exactly `e + 1` places. -/
def fpDigits (e r : Nat) : List Nat :=
  List.replicate (e + 1 - (natDigitsLE r).length) 0 ++ (natDigitsLE r).reverse

/-- The characters `repr` prints for a float: optional sign, integer digits,
a dot, and `e + 1` fractional digits. -/
def renderPyFloat (x : PyFloat) : List Char :=
  let s := x.m.natAbs
  let p := 10 ^ (x.e + 1)
  (if x.m < 0 then ['-'] else [])
    ++ (ipDigits (s / p)).map digitChar
    ++ '.' :: (fpDigits x.e (s % p)).map digitChar

/-- The characters `json.dump` writes for one metric value: Python's `json`
module writes the non-standard token `NaN` for `float('nan')`. -/
def renderMetricValue : MetricValue → List Char
  | MetricValue.nan => ['N', 'a', 'N']
  | MetricValue.num x => renderPyFloat x

/-- One line of the indented object body: four spaces of indent, the quoted
key, the `": "` key separator, and the value. -/
def json_dump_entry (p : String × MetricValue) : List Char :=
  [' ', ' ', ' ', ' ', '"'] ++ p.1.toList ++ '"' :: ':' :: ' ' :: renderMetricValue p.2

/-- The object body: entries joined by `",\n"`. -/
def json_dump_body : List (String × MetricValue) → List Char
  | [] => []
  | [p] => json_dump_entry p
  | p :: q :: ps => json_dump_entry p ++ ',' :: '\n' :: json_dump_body (q :: ps)

/-- `json.dump(metrics, f, indent=4)` for a string-keyed flat mapping: the
exact text Python writes (an empty mapping prints as open-close braces with
nothing between). -/
def json_dump_indent4 (m : List (String × MetricValue)) : String :=
  if m.isEmpty then String.mk ['{', '}']
  else String.mk ('{' :: '\n' :: json_dump_body m ++ '\n' :: ['}'])

/-! ## `json.load`, restricted to the grammar `json.dump` emits -/

/-- Strip an expected literal prefix. -/
def dropPrefixCh : List Char → List Char → Option (List Char)
  | [], cs => some cs
  | _ :: _, [] => none
  | p :: ps, c :: cs => if p = c then dropPrefixCh ps cs else none

/-- Longest run of decimal digit characters, as digit values. -/
def spanDigits : List Char → List Nat × List Char
  | [] => ([], [])
  | c :: cs =>
    if isDigitCh c then
      let s := spanDigits cs
      (charDigit c :: s.1, s.2)
    else ([], c :: cs)

/-- Longest run of non-quote characters. -/
def spanNotQuote : List Char → List Char × List Char
  | [] => ([], [])
  | c :: cs =>
    if c = '"' then ([], c :: cs)
    else
      let s := spanNotQuote cs
      (c :: s.1, s.2)

/-- Parse a quoted key (the keys `json.dump` writes here contain no escapes). -/
def json_parse_string (cs : List Char) : Option (String × List Char) :=
  if cs.head? = some '"' then
    let s := spanNotQuote cs.tail
    if s.2.head? = some '"' then some (String.mk s.1, s.2.tail) else none
  else none

/-- Parse an unsigned JSON number of the shape `repr` prints: integer
digits, a dot, fractional digits. -/
def json_parse_unsigned (cs : List Char) : Option (PyFloat × List Char) :=
  let ip := spanDigits cs
  if ip.1 = [] then none
  else if ip.2.head? = some '.' then
    let fp := spanDigits ip.2.tail
    if fp.1 = [] then none
    else
      some ({ m := (digitsVal ip.1 * 10 ^ fp.1.length + digitsVal fp.1 : Nat),
              e := fp.1.length - 1 }, fp.2)
  else none

/-- Parse a JSON number: an optional minus sign, then an unsigned number. -/
def json_parse_number (cs : List Char) : Option (PyFloat × List Char) :=
  if cs.head? = some '-' then
    (json_parse_unsigned cs.tail).map fun p => ({ m := -p.1.m, e := p.1.e }, p.2)
  else json_parse_unsigned cs

/-- Parse a value: the `NaN` literal or a number. -/
def json_parse_value (cs : List Char) : Option (MetricValue × List Char) :=
  if cs.take 3 = ['N', 'a', 'N'] then some (MetricValue.nan, cs.drop 3)
  else (json_parse_number cs).map fun p => (MetricValue.num p.1, p.2)

/-- Parse one indented `"key": value` line. -/
def json_parse_entry (cs : List Char) : Option ((String × MetricValue) × List Char) := do
  let cs0 ← dropPrefixCh [' ', ' ', ' ', ' '] cs
  let (n, cs1) ← json_parse_string cs0
  let cs2 ← dropPrefixCh [':', ' '] cs1
  let (v, cs3) ← json_parse_value cs2
  some ((n, v), cs3)

/-- Parse a nonempty run of entries separated by `",\n"`. -/
def json_parse_entries : Nat → List Char → Option (List (String × MetricValue) × List Char)
  | 0, _ => none
  | fuel + 1, cs =>
    (json_parse_entry cs).bind fun pcs =>
      (dropPrefixCh [',', '\n'] pcs.2).elim
        (some ([pcs.1], pcs.2))
        (fun cs2 => (json_parse_entries fuel cs2).map fun psr => (pcs.1 :: psr.1, psr.2))

/-- `json.load` on the text `json.dump(·, indent=4)` produces for a flat
string-keyed mapping. -/
def json_loads (s : String) : Option (List (String × MetricValue)) :=
  let cs := s.toList
  if cs = ['{', '}'] then some []
  else do
    let cs0 ← dropPrefixCh ['{', '\n'] cs
    let (ps, r) ← json_parse_entries cs0.length cs0
    let r2 ← dropPrefixCh ['\n', '}'] r
    if r2 = [] then some ps else none

/-- A character list that does not begin with a decimal digit (the shape of
the text that follows a printed number in a dumped object). -/
def noDigitHead : List Char → Bool
  | [] => true
  | c :: _ => !isDigitCh c

/-- A key `json.dump` writes without escaping and `json.load` reads back
verbatim: one containing no quote character. Every metric name qualifies. -/
def goodKey (s : String) : Prop := '"' ∉ s.toList

instance (s : String) : Decidable (goodKey s) := by
  unfold goodKey
  infer_instance

/-! ## Test step and test-epoch end (`test_step`, `on_test_epoch_end`) -/

/-- One record appended to `self.test_step_outputs` by `test_step`:
`dict(predictions=y_hat, labels=batch_labels)`. The inner dictionaries are
keyed by the single task name `finetune` (the model's only task), so each is
identified with its `finetune` tensor. -/
structure StepOutput where
  predictions : Tensor
  labels : Tensor
deriving DecidableEq

/-- The mutable state `test_step` and `on_test_epoch_end` share:
the `self.test_step_outputs` accumulator list. -/
structure TestState where
  test_step_outputs : List StepOutput
deriving DecidableEq

/-- `FinetuneSmilesMolbertModel.test_step` (finetune.py lines 132-147): runs
the forward pass (an external computation, its result is the `y_hat`
argument), appends the output record to the accumulator and returns it. -/
def test_step (y_hat : Tensor) (batch_labels : Tensor) (s : TestState) :
    StepOutput × TestState :=
  let outputs : StepOutput := { predictions := y_hat, labels := batch_labels }
  (outputs, { test_step_outputs := s.test_step_outputs ++ [outputs] })

/-- `torch.cat` on a list of tensors: raises on an empty list, otherwise
concatenates along the first dimension. -/
def torch_cat (ts : List Tensor) : Except String Tensor :=
  if ts.isEmpty then Except.error "torch.cat(): expected a non-empty list of Tensors"
  else Except.ok ts.flatten

/-- `torch.sum(torch.stack(vs))`: `torch.stack` raises on an empty list,
the sum of a stacked list of scalars is their sum. -/
def torch_stack_sum (vs : List ℚ) : Except String ℚ :=
  if vs.isEmpty then Except.error "stack expects a non-empty TensorList"
  else Except.ok vs.sum

/-- The collaborators `on_test_epoch_end` calls out to: the torchmetrics
kernels, `self.hparams.mode`, and `MolbertModel.evaluate_losses` of the base
model (external to the given sources; a map from the concatenated labels and
predictions to a named dictionary of scalar losses). -/
structure EpochEndEnv where
  lib : TorchMetricsLib
  mode : String
  evaluate_losses : Tensor → Tensor → List (String × ℚ)

/-- The summary record `on_test_epoch_end` returns, together with the text it
wrote to `metrics.json` (the observable effect of the `json.dump` call). -/
structure EpochEndResult where
  loss : ℚ
  metrics : List (String × MetricValue)
  test_loss : ℚ
  log : List (String × ℚ)
  metrics_json : String
deriving DecidableEq

/-- `FinetuneSmilesMolbertModel.on_test_epoch_end` (finetune.py lines
149-174): concatenates the accumulated predictions and labels (raising when
the accumulator is empty), computes losses, the total loss, and the metrics
report, writes the report as 4-space-indented JSON, clears the accumulator
and returns the summary. An error leaves the accumulator untouched. -/
def on_test_epoch_end (env : EpochEndEnv) (s : TestState) :
    Except String (EpochEndResult × TestState) :=
  let outputs := s.test_step_outputs
  match torch_cat (outputs.map StepOutput.predictions) with
  | Except.error e => Except.error e
  | Except.ok all_predictions =>
    match torch_cat (outputs.map StepOutput.labels) with
    | Except.error e => Except.error e
    | Except.ok all_labels =>
      let losses := env.evaluate_losses all_labels all_predictions
      match torch_stack_sum (losses.map Prod.snd) with
      | Except.error e => Except.error e
      | Except.ok loss =>
        let metrics := evaluate_metrics env.lib env.mode all_labels all_predictions
        let tensorboard_logs := ("test_loss", loss) :: losses
        let metrics_json := json_dump_indent4 metrics
        Except.ok ({ loss := loss
                     metrics := metrics
                     test_loss := loss
                     log := tensorboard_logs
                     metrics_json := metrics_json },
                   { test_step_outputs := [] })

/-! ## Concrete inputs used by the witnesses -/

/-- A metrics library where `AUROC` raises and every other metric returns
`1.0` (the single-class-labels failure mode named by the spec). -/
def wLib : TorchMetricsLib :=
  { compute := fun name _ _ =>
      if name = "AUROC" then Except.error "ValueError: Only one class present in y_true."
      else Except.ok { m := 10, e := 0 } }

/-- A metrics library that returns `0.5` everywhere. -/
def wLibHalf : TorchMetricsLib :=
  { compute := fun _ _ _ => Except.ok { m := 5, e := 0 } }

def wEnv : EpochEndEnv :=
  { lib := wLibHalf
    mode := "regression"
    evaluate_losses := fun _ _ => [("finetune", 1)] }

def wState : TestState :=
  { test_step_outputs := [{ predictions := [1, 2], labels := [1, 0] }] }

/-- The run of `on_test_epoch_end` on the concrete witness input; it
succeeds, and this extracts its result. -/
def wRun : EpochEndResult × TestState :=
  (on_test_epoch_end wEnv wState).toOption.getD
    ({ loss := 0, metrics := [], test_loss := 0, log := [], metrics_json := "" },
     { test_step_outputs := [] })

def wEnvCls : EpochEndEnv :=
  { lib := wLib
    mode := "classification"
    evaluate_losses := fun _ _ => [("finetune", 2)] }

def wStateCls : TestState :=
  { test_step_outputs :=
      [{ predictions := [1, 0], labels := [1] }, { predictions := [0, 1], labels := [0] }] }

/-- The run of `on_test_epoch_end` on the classification witness input. -/
def wRunCls : EpochEndResult × TestState :=
  (on_test_epoch_end wEnvCls wStateCls).toOption.getD
    ({ loss := 0, metrics := [], test_loss := 0, log := [], metrics_json := "" },
     { test_step_outputs := [] })

/-- Concrete hyperparameters with a missing vocabulary size and the tiny
architecture flag set. -/
def wHParams : HParams :=
  { vocab_size := none
    tiny := true
    max_position_embeddings := 512
    mode := "classification"
    output_size := 2
    label_column := "label"
    max_seq_length := 128
    train_file := "train.csv"
    valid_file := "valid.csv"
    test_file := "test.csv"
    num_workers := 0 }

/-! ## Theorems: configuration, tasks, datasets, trainer -/

/-- C5: for every argument set with `tiny=true`, `get_config` returns a
configuration with `hidden_size=16`, `num_hidden_layers=2`,
`num_attention_heads=2`, `intermediate_size=32` regardless of other
arguments; with `tiny=false` it returns `hidden_size=768`,
`num_hidden_layers=12`, `num_attention_heads=12`, `intermediate_size=3072`;
when the vocabulary size is missing or falsy it defaults to `42`; and mode,
output size, and label column pass through unchanged. -/
theorem get_config_presets (h : HParams) :
    ((get_config h).1.hidden_size = if h.tiny = true then 16 else 768)
    ∧ ((get_config h).1.num_hidden_layers = if h.tiny = true then 2 else 12)
    ∧ ((get_config h).1.num_attention_heads = if h.tiny = true then 2 else 12)
    ∧ ((get_config h).1.intermediate_size = if h.tiny = true then 32 else 3072)
    ∧ ((h.vocab_size = none ∨ h.vocab_size = some 0) →
        (get_config h).1.vocab_size_or_config_json_file = 42)
    ∧ (get_config h).1.mode = h.mode
    ∧ (get_config h).1.output_size = h.output_size
    ∧ (get_config h).1.label_column = h.label_column := by
  unfold get_config
  by_cases hv : h.vocab_size = none ∨ h.vocab_size = some 0 <;>
    by_cases ht : h.tiny = true <;>
      simp [hv, ht]

/-- C10: `get_config` is not side-effect free: when the hyperparameters have
a missing or falsy `vocab_size`, the call persistently sets `vocab_size` to
`42` on the shared hyperparameter object; otherwise the hyperparameters are
left unchanged. -/
theorem get_config_mutates_vocab_size (h : HParams) :
    ((h.vocab_size = none ∨ h.vocab_size = some 0) →
      (get_config h).2.vocab_size = some 42)
    ∧ (¬(h.vocab_size = none ∨ h.vocab_size = some 0) → (get_config h).2 = h) := by
  unfold get_config
  by_cases hv : h.vocab_size = none ∨ h.vocab_size = some 0 <;>
    by_cases ht : h.tiny = true <;>
      simp [hv, ht]

/-- C6: for every configuration, `get_tasks` returns a sequence containing
exactly one task, and that task's name is `"finetune"`. -/
theorem get_tasks_single_finetune (config : BertConfigExtras) :
    (get_tasks config).length = 1
    ∧ (get_tasks config).map FinetuneTask.name = ["finetune"] :=
  ⟨rfl, rfl⟩

/-- C7: `load_datasets` builds one featurizer, sized to the max sequence
length, and reuses that same featurizer for all three partitions; train and
valid are constructed without inference mode, and only the test partition is
constructed with inference mode enabled. -/
theorem load_datasets_shared_featurizer (h : HParams) :
    (load_datasets h).train.featurizer = bert_smiles_index_featurizer h.max_seq_length
    ∧ (load_datasets h).valid.featurizer = (load_datasets h).train.featurizer
    ∧ (load_datasets h).test.featurizer = (load_datasets h).train.featurizer
    ∧ (load_datasets h).train.inference_mode = false
    ∧ (load_datasets h).valid.inference_mode = false
    ∧ (load_datasets h).test.inference_mode = true :=
  ⟨rfl, rfl, rfl, rfl, rfl, rfl⟩

/-- C8: in `run`, the trainer's device selection is derived from the `gpus`
argument: the value `0` maps to the `"auto"` auto-detect setting, and any
nonzero value is passed through as the explicit device count. -/
theorem run_devices_selection :
    (∀ args : RunArgs, args.gpus = 0 → (run_trainer_args args).devices = Devices.auto)
    ∧ (∀ args : RunArgs, args.gpus ≠ 0 →
        (run_trainer_args args).devices = Devices.count args.gpus) := by
  constructor <;> intro args hg <;> simp [run_trainer_args, hg]

/-! ## Theorems: the test dataloader's batching -/

/-- The chunking a loader with positive batch size `bs` performs, with enough
fuel: the batch sizes sum to the dataset size, every batch is nonempty and at
most `bs`, a dataset of at most `bs` examples is one single batch, and every
batch before the last is exactly `bs`. -/
theorem chunkSizesAux_spec (bs : Nat) (hbs : 0 < bs) :
    ∀ fuel n, n ≤ fuel →
      (chunkSizesAux bs fuel n).sum = n
      ∧ (∀ b ∈ chunkSizesAux bs fuel n, 0 < b ∧ b ≤ bs)
      ∧ (0 < n → n ≤ bs → chunkSizesAux bs fuel n = [n])
      ∧ (∀ i, i + 1 < (chunkSizesAux bs fuel n).length →
          (chunkSizesAux bs fuel n).getD i 0 = bs) := by
  intro fuel
  induction fuel with
  | zero =>
    intro n hn
    have h0 : n = 0 := Nat.le_zero.mp hn
    subst h0
    simp [chunkSizesAux]
  | succ fuel ih =>
    intro n hn
    by_cases h0 : n = 0
    · subst h0; simp [chunkSizesAux]
    · by_cases hle : n ≤ bs
      · simp only [chunkSizesAux, if_neg h0, if_pos hle]
        refine ⟨by simp, by intro b hb; simp at hb; omega, by simp, ?_⟩
        intro i hi
        simp at hi
      · have hrec := ih (n - bs) (by omega)
        simp only [chunkSizesAux, if_neg h0, if_neg hle]
        obtain ⟨hsum, hmem, _, hlast⟩ := hrec
        refine ⟨by simp [hsum]; omega, ?_, fun _ hq => absurd hq hle, ?_⟩
        · intro b hb
          rcases List.mem_cons.mp hb with hb | hb
          · omega
          · exact hmem b hb
        · intro i hi
          cases i with
          | zero => rfl
          | succ j =>
            simp only [List.length_cons] at hi
            exact hlast j (by omega)

/-- C4 counterexample: on a test set of 1500 examples the loader does split
the data into a multi-batch sequence containing a batch that is neither of
size 1024 nor of the full dataset size: the batches are `[1024, 476]`. -/
theorem test_dataloader_uniform_batch_counterexample :
    ¬ (∀ b ∈ batch_sizes (test_dataloader 1500),
        b = 1024 ∨ (1500 < 1024 ∧ b = 1500)) := by
  decide

/-- C4 amended: `test_dataloader` hands the test set to a loader with batch
size 1024, which yields it in consecutive chunks: the batch sizes sum to the
dataset size, every batch holds at most 1024 examples, a dataset of at most
1024 examples is loaded as one single full-dataset batch, and every batch
before the last holds exactly 1024 examples (only the final batch may be
smaller). -/
theorem test_dataloader_chunked_batches (n : Nat) :
    (batch_sizes (test_dataloader n)).sum = n
    ∧ (∀ b ∈ batch_sizes (test_dataloader n), 0 < b ∧ b ≤ 1024)
    ∧ (0 < n → n ≤ 1024 → batch_sizes (test_dataloader n) = [n])
    ∧ (∀ i, i + 1 < (batch_sizes (test_dataloader n)).length →
        (batch_sizes (test_dataloader n)).getD i 0 = 1024) :=
  chunkSizesAux_spec 1024 (by norm_num) n n (Nat.le_refl n)

/-! ## Lemmas: fuelled decimal digits -/

theorem natDigitsRev_zero (f : Nat) : natDigitsRev f 0 = [] := by
  cases f <;> simp [natDigitsRev]

theorem natDigitsRev_fuel :
    ∀ n f g, n ≤ f → n ≤ g → natDigitsRev f n = natDigitsRev g n := by
  intro n
  induction n using Nat.strong_induction_on with
  | _ n ih =>
    intro f g hf hg
    rcases Nat.eq_zero_or_pos n with h0 | h0
    · subst h0; rw [natDigitsRev_zero, natDigitsRev_zero]
    · have hn : n ≠ 0 := Nat.pos_iff_ne_zero.mp h0
      obtain ⟨f1, rfl⟩ : ∃ f1, f = f1 + 1 := ⟨f - 1, by omega⟩
      obtain ⟨g1, rfl⟩ : ∃ g1, g = g1 + 1 := ⟨g - 1, by omega⟩
      have hd : n / 10 < n := Nat.div_lt_self h0 (by norm_num)
      simp only [natDigitsRev, if_neg hn]
      exact congrArg _ (ih (n / 10) hd f1 g1 (by omega) (by omega))

theorem natDigitsLE_zero : natDigitsLE 0 = [] := rfl

theorem natDigitsLE_succ (n : Nat) (hn : n ≠ 0) :
    natDigitsLE n = n % 10 :: natDigitsLE (n / 10) := by
  unfold natDigitsLE
  obtain ⟨m, rfl⟩ : ∃ m, n = m + 1 := ⟨n - 1, by omega⟩
  simp only [natDigitsRev, if_neg hn]
  have hd : (m + 1) / 10 < m + 1 := Nat.div_lt_self (by omega) (by norm_num)
  exact congrArg _ (natDigitsRev_fuel ((m + 1) / 10) m ((m + 1) / 10) (by omega) (by omega))

theorem fromDigitsLE_natDigitsLE (n : Nat) : fromDigitsLE (natDigitsLE n) = n := by
  induction n using Nat.strong_induction_on with
  | _ n ih =>
    rcases Nat.eq_zero_or_pos n with h0 | h0
    · subst h0; rfl
    · have hn : n ≠ 0 := Nat.pos_iff_ne_zero.mp h0
      have hd : n / 10 < n := Nat.div_lt_self h0 (by norm_num)
      rw [natDigitsLE_succ n hn]
      simp only [fromDigitsLE, ih (n / 10) hd]
      omega

theorem natDigitsLE_lt_ten (n : Nat) : ∀ d ∈ natDigitsLE n, d < 10 := by
  induction n using Nat.strong_induction_on with
  | _ n ih =>
    rcases Nat.eq_zero_or_pos n with h0 | h0
    · subst h0; simp [natDigitsLE_zero]
    · have hn : n ≠ 0 := Nat.pos_iff_ne_zero.mp h0
      have hd : n / 10 < n := Nat.div_lt_self h0 (by norm_num)
      rw [natDigitsLE_succ n hn]
      intro d hdm
      rcases List.mem_cons.mp hdm with h | h
      · omega
      · exact ih (n / 10) hd d h

theorem natDigitsLE_length_le :
    ∀ k n, n < 10 ^ k → (natDigitsLE n).length ≤ k := by
  intro k
  induction k with
  | zero =>
    intro n hnk
    interval_cases n
    simp [natDigitsLE_zero]
  | succ k ih =>
    intro n hnk
    rcases Nat.eq_zero_or_pos n with h0 | h0
    · subst h0; simp [natDigitsLE_zero]
    · have hn : n ≠ 0 := Nat.pos_iff_ne_zero.mp h0
      rw [natDigitsLE_succ n hn]
      simp only [List.length_cons]
      have hdiv : n / 10 < 10 ^ k := by
        rw [Nat.div_lt_iff_lt_mul (by norm_num)]
        calc n < 10 ^ (k + 1) := hnk
          _ = 10 ^ k * 10 := by ring
      exact Nat.succ_le_succ (ih (n / 10) hdiv)

theorem fromDigitsLE_append_zeros (l : List Nat) (k : Nat) :
    fromDigitsLE (l ++ List.replicate k 0) = fromDigitsLE l := by
  induction l with
  | nil =>
    simp only [List.nil_append, fromDigitsLE]
    induction k with
    | zero => rfl
    | succ k ihk => simp [List.replicate, fromDigitsLE, ihk]
  | cons d ds ih => simp [fromDigitsLE, ih]

theorem digitsVal_ipDigits (n : Nat) : digitsVal (ipDigits n) = n := by
  unfold ipDigits digitsVal
  rcases Nat.eq_zero_or_pos n with h0 | h0
  · subst h0; rfl
  · have hn : n ≠ 0 := Nat.pos_iff_ne_zero.mp h0
    rw [if_neg hn, List.reverse_reverse]
    exact fromDigitsLE_natDigitsLE n

theorem digitsVal_fpDigits (e r : Nat) : digitsVal (fpDigits e r) = r := by
  unfold fpDigits digitsVal
  rw [List.reverse_append, List.reverse_replicate, List.reverse_reverse]
  rw [fromDigitsLE_append_zeros]
  exact fromDigitsLE_natDigitsLE r

theorem fpDigits_length (e r : Nat) (h : r < 10 ^ (e + 1)) :
    (fpDigits e r).length = e + 1 := by
  unfold fpDigits
  have := natDigitsLE_length_le (e + 1) r h
  simp only [List.length_append, List.length_replicate, List.length_reverse]
  omega

theorem ipDigits_ne_nil (n : Nat) : ipDigits n ≠ [] := by
  unfold ipDigits
  rcases Nat.eq_zero_or_pos n with h0 | h0
  · subst h0; simp
  · have hn : n ≠ 0 := Nat.pos_iff_ne_zero.mp h0
    rw [if_neg hn]
    intro hcon
    have := fromDigitsLE_natDigitsLE n
    rw [← List.reverse_reverse (natDigitsLE n), hcon] at this
    simp [fromDigitsLE] at this
    omega

theorem ipDigits_lt_ten (n : Nat) : ∀ d ∈ ipDigits n, d < 10 := by
  unfold ipDigits
  rcases Nat.eq_zero_or_pos n with h0 | h0
  · subst h0; simp
  · have hn : n ≠ 0 := Nat.pos_iff_ne_zero.mp h0
    rw [if_neg hn]
    intro d hd
    exact natDigitsLE_lt_ten n d (List.mem_reverse.mp hd)

theorem fpDigits_lt_ten (e r : Nat) : ∀ d ∈ fpDigits e r, d < 10 := by
  unfold fpDigits
  intro d hd
  rcases List.mem_append.mp hd with h | h
  · have := List.eq_of_mem_replicate h
    omega
  · exact natDigitsLE_lt_ten r d (List.mem_reverse.mp h)

/-! ## Lemmas: characters and spans -/

theorem digitChar_isDigit (d : Nat) (h : d < 10) : isDigitCh (digitChar d) = true := by
  interval_cases d <;> decide

theorem charDigit_digitChar (d : Nat) (h : d < 10) : charDigit (digitChar d) = d := by
  interval_cases d <;> decide

theorem digitChar_ne (d : Nat) (h : d < 10) :
    digitChar d ≠ '-' ∧ digitChar d ≠ '.' ∧ digitChar d ≠ 'N' ∧ digitChar d ≠ '"' := by
  interval_cases d <;> decide

theorem spanDigits_map_append (ds : List Nat) (hds : ∀ d ∈ ds, d < 10)
    (rest : List Char) (hrest : noDigitHead rest = true) :
    spanDigits (ds.map digitChar ++ rest) = (ds, rest) := by
  induction ds with
  | nil =>
    simp only [List.map_nil, List.nil_append]
    cases rest with
    | nil => rfl
    | cons c cs =>
      simp only [noDigitHead, Bool.not_eq_true'] at hrest
      simp [spanDigits, hrest]
  | cons d ds ih =>
    have hd : d < 10 := hds d (List.mem_cons_self d ds)
    have ih2 := ih (fun x hx => hds x (List.mem_cons_of_mem d hx))
    simp only [List.map_cons, List.cons_append, spanDigits,
      digitChar_isDigit d hd, if_pos, List.append_eq]
    rw [ih2]
    simp [charDigit_digitChar d hd]

theorem spanNotQuote_append (l : List Char) (hl : '"' ∉ l) (rest : List Char) :
    spanNotQuote (l ++ '"' :: rest) = (l, '"' :: rest) := by
  induction l with
  | nil => simp [spanNotQuote]
  | cons c cs ih =>
    have hc : c ≠ '"' := fun hcon => hl (hcon ▸ List.mem_cons_self c cs)
    have ih2 := ih (fun hx => hl (List.mem_cons_of_mem c hx))
    simp only [List.cons_append, spanNotQuote, if_neg hc, List.append_eq]
    rw [ih2]

theorem dropPrefixCh_append (p rest : List Char) :
    dropPrefixCh p (p ++ rest) = some rest := by
  induction p with
  | nil => rfl
  | cons c cs ih => simp [dropPrefixCh, ih]

/-! ## Lemmas: `json_loads` inverts `json_dump_indent4` -/

theorem json_parse_unsigned_digits (ipds fpds : List Nat) (rest : List Char)
    (hip10 : ∀ d ∈ ipds, d < 10) (hfp10 : ∀ d ∈ fpds, d < 10)
    (hipne : ipds ≠ []) (hfpne : fpds ≠ []) (hrest : noDigitHead rest = true) :
    json_parse_unsigned (ipds.map digitChar ++ '.' :: fpds.map digitChar ++ rest)
      = some ({ m := (digitsVal ipds * 10 ^ fpds.length + digitsVal fpds : Nat),
                e := fpds.length - 1 }, rest) := by
  have hip := spanDigits_map_append ipds hip10 ('.' :: fpds.map digitChar ++ rest)
    (by simp [noDigitHead, isDigitCh])
  have hfp := spanDigits_map_append fpds hfp10 rest hrest
  unfold json_parse_unsigned
  rw [List.append_assoc, hip]
  simp only [List.cons_append, List.head?_cons, List.tail_cons, if_neg hipne, if_pos rfl]
  rw [hfp]
  simp [if_neg hfpne]

/-- The first character of the digits of an unsigned rendered float is a
digit, hence not a minus sign. -/
theorem map_digitChar_head_ne (ds : List Nat) (hds : ∀ d ∈ ds, d < 10)
    (hne : ds ≠ []) (tail : List Char) (c : Char) (hc : c = '-' ∨ c = 'N') :
    (ds.map digitChar ++ tail).head? ≠ some c := by
  obtain ⟨d0, ds0, rfl⟩ : ∃ d0 ds0, ds = d0 :: ds0 := by
    cases ds with
    | nil => exact absurd rfl hne
    | cons a l => exact ⟨a, l, rfl⟩
  have hd0 : d0 < 10 := hds d0 (List.mem_cons_self _ _)
  have h := digitChar_ne d0 hd0
  simp only [List.map_cons, List.cons_append, List.head?_cons, ne_eq,
    Option.some.injEq]
  rcases hc with rfl | rfl
  · exact h.1
  · exact h.2.2.1

theorem json_parse_number_render (x : PyFloat) (rest : List Char)
    (hrest : noDigitHead rest = true) :
    json_parse_number (renderPyFloat x ++ rest) = some (x, rest) := by
  obtain ⟨m, e⟩ := x
  unfold renderPyFloat
  simp only
  set s := m.natAbs with hs
  set p := 10 ^ (e + 1) with hp
  have hfplen : (fpDigits e (s % p)).length = e + 1 :=
    fpDigits_length e (s % p) (Nat.mod_lt s (by positivity))
  have hfpne : fpDigits e (s % p) ≠ [] := by
    intro hcon
    rw [hcon] at hfplen
    simp at hfplen
  have hcore := json_parse_unsigned_digits (ipDigits (s / p)) (fpDigits e (s % p))
    rest (ipDigits_lt_ten (s / p)) (fpDigits_lt_ten e (s % p))
    (ipDigits_ne_nil (s / p)) hfpne hrest
  simp only [List.append_assoc, List.cons_append] at hcore
  have hval : digitsVal (ipDigits (s / p)) * 10 ^ (e + 1)
      + digitsVal (fpDigits e (s % p)) = s := by
    rw [digitsVal_ipDigits, digitsVal_fpDigits, ← hp, Nat.mul_comm]
    exact Nat.div_add_mod s p
  have hcast : ((digitsVal (ipDigits (s / p)) * 10 ^ (e + 1)
      + digitsVal (fpDigits e (s % p)) : Nat) : Int) = (s : Int) := by
    exact_mod_cast hval
  rcases lt_or_ge m 0 with hm | hm
  · rw [if_pos hm]
    simp only [List.singleton_append, List.cons_append, List.nil_append,
      List.append_assoc]
    unfold json_parse_number
    rw [List.head?_cons, if_pos rfl, List.tail_cons]
    rw [hcore, hfplen]
    simp only [Option.map_some', Option.some.injEq, Prod.mk.injEq, PyFloat.mk.injEq]
    refine ⟨⟨?_, by omega⟩, trivial⟩
    rw [hcast]
    omega
  · rw [if_neg (not_lt.mpr hm)]
    simp only [List.nil_append, List.cons_append, List.append_assoc]
    unfold json_parse_number
    rw [if_neg (map_digitChar_head_ne (ipDigits (s / p)) (ipDigits_lt_ten (s / p))
      (ipDigits_ne_nil (s / p)) _ '-' (Or.inl rfl))]
    rw [hcore, hfplen]
    simp only [Option.some.injEq, Prod.mk.injEq, PyFloat.mk.injEq]
    refine ⟨⟨?_, by omega⟩, trivial⟩
    rw [hcast]
    omega

theorem renderPyFloat_take3_ne (x : PyFloat) (rest : List Char) :
    ¬((renderPyFloat x ++ rest).take 3 = ['N', 'a', 'N']) := by
  obtain ⟨m, e⟩ := x
  unfold renderPyFloat
  simp only
  rcases lt_or_ge m 0 with hm | hm
  · rw [if_pos hm]
    simp only [List.singleton_append, List.cons_append, List.nil_append,
      List.append_assoc, List.take_succ_cons]
    intro hcon
    exact absurd (List.head_eq_of_cons_eq hcon) (by decide)
  · rw [if_neg (not_lt.mpr hm)]
    simp only [List.nil_append, List.cons_append, List.append_assoc]
    obtain ⟨d0, t0, hds⟩ :=
      List.exists_cons_of_ne_nil (ipDigits_ne_nil (m.natAbs / 10 ^ (e + 1)))
    have hd0 : d0 < 10 := ipDigits_lt_ten _ d0 (by rw [hds]; exact List.mem_cons_self _ _)
    rw [hds]
    simp only [List.map_cons, List.cons_append, List.take_succ_cons]
    intro hcon
    exact absurd (List.head_eq_of_cons_eq hcon) (digitChar_ne d0 hd0).2.2.1

theorem json_parse_value_render (v : MetricValue) (rest : List Char)
    (hrest : noDigitHead rest = true) :
    json_parse_value (renderMetricValue v ++ rest) = some (v, rest) := by
  cases v with
  | nan =>
    unfold renderMetricValue json_parse_value
    simp
  | num x =>
    have hnum := json_parse_number_render x rest hrest
    unfold renderMetricValue json_parse_value
    rw [if_neg (renderPyFloat_take3_ne x rest), hnum]
    rfl

theorem string_mk_toList (n : String) : String.mk n.toList = n := by
  rcases n with ⟨l⟩
  rfl

theorem json_parse_string_render (n : String) (hn : goodKey n) (rest : List Char) :
    json_parse_string ('"' :: (n.toList ++ '"' :: rest)) = some (n, rest) := by
  unfold json_parse_string
  rw [List.head?_cons, if_pos rfl, List.tail_cons, spanNotQuote_append n.toList hn]
  simp [string_mk_toList]

theorem json_parse_entry_render (n : String) (v : MetricValue) (rest : List Char)
    (hn : goodKey n) (hrest : noDigitHead rest = true) :
    json_parse_entry (json_dump_entry (n, v) ++ rest) = some ((n, v), rest) := by
  have h1 : json_dump_entry (n, v) ++ rest
      = [' ', ' ', ' ', ' ']
        ++ ('"' :: (n.toList ++ '"' :: ':' :: ' ' :: (renderMetricValue v ++ rest))) := by
    unfold json_dump_entry
    simp [List.append_assoc]
  rw [h1]
  unfold json_parse_entry
  rw [dropPrefixCh_append]
  simp only [Option.bind_eq_bind, Option.some_bind]
  rw [json_parse_string_render n hn]
  simp only [Option.some_bind]
  rw [show (':' :: ' ' :: (renderMetricValue v ++ rest))
      = [':', ' '] ++ (renderMetricValue v ++ rest) from rfl, dropPrefixCh_append]
  simp only [Option.some_bind]
  rw [json_parse_value_render v rest hrest]
  rfl

theorem json_dump_body_length (ps : List (String × MetricValue)) :
    ps.length ≤ (json_dump_body ps).length := by
  induction ps with
  | nil => simp [json_dump_body]
  | cons p ps ih =>
    cases ps with
    | nil => simp [json_dump_body, json_dump_entry]
    | cons q qs =>
      simp only [json_dump_body, List.length_append, List.length_cons] at ih ⊢
      have : 1 ≤ (json_dump_entry p).length := by
        unfold json_dump_entry
        simp
      omega

theorem json_parse_entries_render (ps : List (String × MetricValue)) :
    ∀ fuel, ps ≠ [] → (∀ p ∈ ps, goodKey p.1) → ps.length ≤ fuel →
      json_parse_entries fuel (json_dump_body ps ++ '\n' :: ['}'])
        = some (ps, '\n' :: ['}']) := by
  induction ps with
  | nil => intro fuel hne; exact absurd rfl hne
  | cons p ps ih =>
    intro fuel _ hg hlen
    obtain ⟨f1, rfl⟩ : ∃ f1, fuel = f1 + 1 := ⟨fuel - 1, by simp at hlen; omega⟩
    have hp : goodKey p.1 := hg p (List.mem_cons_self _ _)
    cases ps with
    | nil =>
      simp only [json_dump_body]
      unfold json_parse_entries
      rw [json_parse_entry_render p.1 p.2 ['\n', '}'] hp (by rfl)]
      simp only [Option.bind_eq_bind, Option.some_bind]
      rw [show dropPrefixCh [',', '\n'] ['\n', '}'] = none from rfl]
      rfl
    | cons q qs =>
      simp only [json_dump_body]
      unfold json_parse_entries
      rw [List.append_assoc, List.cons_append, List.cons_append]
      rw [json_parse_entry_render p.1 p.2
        (',' :: '\n' :: (json_dump_body (q :: qs) ++ '\n' :: ['}'])) hp (by rfl)]
      simp only [Option.bind_eq_bind, Option.some_bind]
      rw [show (',' :: '\n' :: (json_dump_body (q :: qs) ++ '\n' :: ['}']))
          = [',', '\n'] ++ (json_dump_body (q :: qs) ++ '\n' :: ['}']) from rfl,
        dropPrefixCh_append]
      simp only [Option.elim_some]
      rw [ih f1 (by simp) (fun x hx => hg x (List.mem_cons_of_mem p hx))
        (by simp at hlen ⊢; omega)]
      rfl

/-- The round trip at the heart of the metrics-file claim: `json.load` reads
back exactly the mapping `json.dump(·, indent=4)` wrote, for any nonempty
mapping whose keys contain no quote character. -/
theorem json_loads_dump (ps : List (String × MetricValue)) (hne : ps ≠ [])
    (hg : ∀ p ∈ ps, goodKey p.1) :
    json_loads (json_dump_indent4 ps) = some ps := by
  have hmk : (json_dump_indent4 ps).toList
      = '{' :: '\n' :: (json_dump_body ps ++ '\n' :: ['}']) := by
    unfold json_dump_indent4
    rw [if_neg (by simpa using hne)]
    rfl
  unfold json_loads
  rw [hmk]
  rw [if_neg ?hbrace]
  case hbrace =>
    intro hcon
    have := List.tail_eq_of_cons_eq hcon
    have h2 := List.head_eq_of_cons_eq this
    exact absurd h2 (by decide)
  rw [show ('{' :: '\n' :: (json_dump_body ps ++ '\n' :: ['}']))
      = ['{', '\n'] ++ (json_dump_body ps ++ '\n' :: ['}']) from rfl,
    dropPrefixCh_append]
  simp only [Option.bind_eq_bind, Option.some_bind]
  rw [json_parse_entries_render ps _ hne hg ?hfuel]
  case hfuel =>
    have h1 := json_dump_body_length ps
    simp only [List.length_append, List.length_cons]
    omega
  simp only [Option.some_bind]
  rw [show dropPrefixCh ['\n', '}'] ('\n' :: ['}']) = some [] from rfl]
  rfl

/-! ## Theorems: metric evaluation and the test-epoch end -/

theorem lookup_map_pair {β : Type} (f : String → β) :
    ∀ (names : List String) (k : String), k ∈ names →
      (names.map fun n => (n, f n)).lookup k = some (f k) := by
  intro names
  induction names with
  | nil => intro k hk; simp at hk
  | cons a t ih =>
    intro k hk
    by_cases hka : k = a
    · subst hka
      simp [List.lookup]
    · rcases List.mem_cons.mp hk with h | h
      · exact absurd h hka
      · have hbeq : (k == a) = false := beq_eq_false_iff_ne.mpr hka
        simp only [List.map_cons, List.lookup, hbeq]
        exact ih k h

theorem evaluate_metrics_lookup (lib : TorchMetricsLib) (mode : String)
    (L P : Tensor) (k : String) (hk : k ∈ metric_names mode) :
    (evaluate_metrics lib mode L P).lookup k
      = some (tryMetric (lib.compute k L P)) :=
  lookup_map_pair _ (metric_names mode) k hk

theorem evaluate_metrics_keys (lib : TorchMetricsLib) (mode : String) (L P : Tensor) :
    (evaluate_metrics lib mode L P).map Prod.fst = metric_names mode := by
  unfold evaluate_metrics
  induction (metric_names mode) with
  | nil => rfl
  | cons a t ih => simp only [List.map_cons, ih]

theorem metric_names_ne_nil (mode : String) : metric_names mode ≠ [] := by
  unfold metric_names
  split <;> simp

theorem metric_names_goodKey (mode : String) :
    ∀ name ∈ metric_names mode, goodKey name := by
  unfold metric_names
  split <;> decide

theorem evaluate_metrics_ne_nil (lib : TorchMetricsLib) (mode : String) (L P : Tensor) :
    evaluate_metrics lib mode L P ≠ [] := by
  intro hcon
  have h := evaluate_metrics_keys lib mode L P
  rw [hcon] at h
  exact metric_names_ne_nil mode h.symm

theorem evaluate_metrics_goodKey (lib : TorchMetricsLib) (mode : String) (L P : Tensor) :
    ∀ p ∈ evaluate_metrics lib mode L P, goodKey p.1 := by
  intro p hp
  unfold evaluate_metrics at hp
  obtain ⟨n, hn, rfl⟩ := List.mem_map.mp hp
  exact metric_names_goodKey mode n hn

/-- C2: in `evaluate_metrics` each named metric is computed independently:
the result has exactly the mode's metric names as keys (so the loop itself
never propagates an exception), a metric whose library call raises is
recorded as the NaN sentinel, and a different metric's entry depends only on
its own library call — it is unaffected by the failing one. -/
theorem evaluate_metrics_isolates_failures
    (lib lib2 : TorchMetricsLib) (mode : String) (L P : Tensor)
    (name m e : String)
    (hname : name ∈ metric_names mode) (hm : m ∈ metric_names mode) (hne : m ≠ name)
    (hagree : ∀ k, k ≠ name → lib2.compute k L P = lib.compute k L P)
    (herr : lib.compute name L P = Except.error e) :
    (evaluate_metrics lib mode L P).map Prod.fst = metric_names mode
    ∧ (evaluate_metrics lib mode L P).lookup name = some MetricValue.nan
    ∧ (evaluate_metrics lib2 mode L P).lookup m
        = (evaluate_metrics lib mode L P).lookup m
    ∧ (evaluate_metrics lib mode L P).lookup m
        = some (tryMetric (lib.compute m L P)) := by
  refine ⟨evaluate_metrics_keys lib mode L P, ?_, ?_, ?_⟩
  · rw [evaluate_metrics_lookup lib mode L P name hname, herr]
    rfl
  · rw [evaluate_metrics_lookup lib2 mode L P m hm,
      evaluate_metrics_lookup lib mode L P m hm, hagree m hne]
  · exact evaluate_metrics_lookup lib mode L P m hm

/-- C2 witness: with the library whose `AUROC` kernel raises on single-class
labels and every other kernel returning `1.0`, the classification report maps
`AUROC` to NaN and `Accuracy` to its own computed value. -/
theorem evaluate_metrics_isolates_failures_witness :
    (evaluate_metrics wLib "classification" [] []).map Prod.fst
        = metric_names "classification"
    ∧ (evaluate_metrics wLib "classification" [] []).lookup "AUROC"
        = some MetricValue.nan
    ∧ (evaluate_metrics wLib "classification" [] []).lookup "Accuracy"
        = (evaluate_metrics wLib "classification" [] []).lookup "Accuracy"
    ∧ (evaluate_metrics wLib "classification" [] []).lookup "Accuracy"
        = some (tryMetric (wLib.compute "Accuracy" [] [])) :=
  evaluate_metrics_isolates_failures wLib wLib "classification" [] [] "AUROC" "Accuracy"
    "ValueError: Only one class present in y_true." (by decide) (by decide) (by decide)
    (fun _ _ => rfl) rfl

/-- C9: `on_test_epoch_end` requires a non-empty accumulator: on an empty
`test_step_outputs` (for example on a second consecutive call after the
accumulator was cleared) the `torch.cat` over the accumulated predictions
raises instead of returning a summary record. -/
theorem on_test_epoch_end_empty_accumulator_raises (env : EpochEndEnv) :
    on_test_epoch_end env { test_step_outputs := [] }
      = Except.error "torch.cat(): expected a non-empty list of Tensors" := rfl

/-- C1: whenever `on_test_epoch_end` returns, the accumulator has been
cleared, so a second call in a row sees none of the prior predictions:
nothing is duplicated or carried over into a later evaluation pass (the
second call fails on the now-empty accumulator instead). -/
theorem on_test_epoch_end_clears_accumulator (env : EpochEndEnv) (s : TestState)
    (r : EpochEndResult) (s2 : TestState)
    (hok : on_test_epoch_end env s = Except.ok (r, s2)) :
    s2.test_step_outputs = []
    ∧ on_test_epoch_end env s2
        = Except.error "torch.cat(): expected a non-empty list of Tensors" := by
  simp only [on_test_epoch_end] at hok
  split at hok
  · exact Except.noConfusion hok
  · split at hok
    · exact Except.noConfusion hok
    · split at hok
      · exact Except.noConfusion hok
      · rw [Except.ok.injEq, Prod.mk.injEq] at hok
        obtain ⟨hr, hs⟩ := hok
        subst hs
        exact ⟨rfl, rfl⟩

/-- C1 witness: a concrete successful test epoch, after which the accumulator
is empty and an immediate second call raises. -/
theorem on_test_epoch_end_clears_accumulator_witness :
    wRun.2.test_step_outputs = []
    ∧ on_test_epoch_end wEnv wRun.2
        = Except.error "torch.cat(): expected a non-empty list of Tensors" :=
  on_test_epoch_end_clears_accumulator wEnv wState wRun.1 wRun.2 (by rfl)

/-- C3: whenever `on_test_epoch_end` returns, the text it wrote to
`metrics.json` is exactly the metrics mapping it computed, serialized as
JSON with 4-space indentation; parsing that text back yields a mapping equal
to the one `evaluate_metrics` returned (NaN sentinels included), whose keys
are exactly the mode's metric names. -/
theorem metrics_json_roundtrip (env : EpochEndEnv) (s : TestState)
    (r : EpochEndResult) (s2 : TestState)
    (hok : on_test_epoch_end env s = Except.ok (r, s2)) :
    r.metrics_json = json_dump_indent4 r.metrics
    ∧ json_loads r.metrics_json = some r.metrics
    ∧ r.metrics.map Prod.fst = metric_names env.mode := by
  simp only [on_test_epoch_end] at hok
  split at hok
  · exact Except.noConfusion hok
  · split at hok
    · exact Except.noConfusion hok
    · split at hok
      · exact Except.noConfusion hok
      · rw [Except.ok.injEq, Prod.mk.injEq] at hok
        obtain ⟨hr, hs⟩ := hok
        subst hr
        refine ⟨rfl, ?_, evaluate_metrics_keys env.lib env.mode _ _⟩
        exact json_loads_dump _ (evaluate_metrics_ne_nil env.lib env.mode _ _)
          (evaluate_metrics_goodKey env.lib env.mode _ _)

/-- C3 witness: a concrete classification test epoch whose report contains a
NaN sentinel; the written file is the 4-space-indented dump of the report and
parses back to it. -/
theorem metrics_json_roundtrip_witness :
    wRunCls.1.metrics_json = json_dump_indent4 wRunCls.1.metrics
    ∧ json_loads wRunCls.1.metrics_json = some wRunCls.1.metrics
    ∧ wRunCls.1.metrics.map Prod.fst = metric_names wEnvCls.mode :=
  metrics_json_roundtrip wEnvCls wStateCls wRunCls.1 wRunCls.2 (by rfl)

end Molbert
